import Mathlib

/-!
# Directory_Synchronizer: a shallow embedding of `dirsync.c`

The development follows `src/dirsync.c` (the user-space synchroniser) and
`src/kernel_dirsync_stat.c` (the `dirsync_stat` system call).

Conventions of the embedding:

* a C string is the list of its characters before the terminating NUL (`CStr`);
* `snprintf(buf, PATH_MAX, "%s/%s", a, b)` and `strncpy(.., PATH_MAX - 1)` keep at most
  `PATH_MAX - 1` characters;
* the global array `wd_map` together with `wd_count` is represented by the list of its
  first `wd_count` slots (no function of the program reads a slot past `wd_count`);
* what the program prints is kept as a list of `Msg` values, so that "a copy was made",
  "a file was unlinked", "an open failed" can be read off a run.
-/

namespace Dirsync

/-! ## Strings and constants -/

/-- A C string: the characters before the terminating NUL. -/
abbrev CStr := List Char

/-- Value of `PATH_MAX` in `<limits.h>` on Linux. -/
def PATH_MAX : Nat := 4096

/-- Capacity of the registry, `#define MAX_WATCHES 1024`. -/
def MAX_WATCHES : Nat := 1024

/-- Result of `snprintf(buf, PATH_MAX, "%s/%s", a, b)`: the joined text, cut to fit the buffer. -/
def snprintf_path (a b : CStr) : CStr :=
  (a ++ '/' :: b).take (PATH_MAX - 1)

/-! ## Watch descriptor to path mapping (lines 28-71) -/

/-- One slot of `wd_map`: `typedef struct { int wd; char path[PATH_MAX]; } wd_map_t`. -/
structure wd_map_t where
  wd : Int
  path : CStr
  deriving DecidableEq, Repr

/-- The registry: the first `wd_count` slots of the global `wd_map`. -/
structure Registry where
  wd_map : List wd_map_t
  deriving DecidableEq, Repr

/-- The global `wd_count`. -/
def wd_count (r : Registry) : Nat := r.wd_map.length

/-- The scan of `get_path_from_wd` over the live slots, first match wins. -/
def lookup_wd : List wd_map_t → Int → Option CStr
  | [], _ => none
  | e :: es, wd => if e.wd = wd then some e.path else lookup_wd es wd

/-- Lines 40-47, `get_path_from_wd`; `none` stands for `NULL`. -/
def get_path_from_wd (r : Registry) (wd : Int) : Option CStr :=
  lookup_wd r.wd_map wd

/-- Lines 50-59, `add_wd_to_map`: append at slot `wd_count` when there is room, else only warn. -/
def add_wd_to_map (r : Registry) (wd : Int) (path : CStr) : Registry :=
  if wd_count r < MAX_WATCHES then
    { wd_map := r.wd_map ++ [{ wd := wd, path := path.take (PATH_MAX - 1) }] }
  else r

/-- Index of the first live slot whose handle is `wd` (the loop of lines 63-64). -/
def wd_index : List wd_map_t → Int → Option Nat
  | [], _ => none
  | e :: es, wd => if e.wd = wd then some 0 else (wd_index es wd).map (· + 1)

/-- Lines 62-71, `remove_wd_from_map`: overwrite the first matching slot with the last live
slot and decrement `wd_count`. -/
def remove_wd_from_map (r : Registry) (wd : Int) : Registry :=
  match wd_index r.wd_map wd with
  | none => r
  | some i =>
    match r.wd_map[wd_count r - 1]? with
    | none => r
    | some last => { wd_map := (r.wd_map.set i last).dropLast }

/-- Handles of the live slots. -/
def handles (r : Registry) : List Int := r.wd_map.map (·.wd)

/-- Paths of the live slots. -/
def paths (r : Registry) : List CStr := r.wd_map.map (·.path)

/-- The registry before any call: `wd_count = 0`. -/
def Registry.empty : Registry := { wd_map := [] }

/-- A call on the registry. -/
inductive RegOp where
  | add (wd : Int) (path : CStr)
  | remove (wd : Int)
  deriving DecidableEq, Repr

/-- Effect of one call. -/
def RegOp.apply (r : Registry) : RegOp → Registry
  | .add wd path => add_wd_to_map r wd path
  | .remove wd => remove_wd_from_map r wd

/-- Effect of a sequence of calls, first call first. -/
def run_ops (r : Registry) (ops : List RegOp) : Registry :=
  ops.foldl RegOp.apply r

/-- Uniqueness invariant of the data model: no two live slots carry the same handle and no
two carry the same path. -/
def Unique (r : Registry) : Prop :=
  (handles r).Nodup ∧ (paths r).Nodup

instance (r : Registry) : Decidable (Unique r) := by
  unfold Unique; infer_instance

/-- The call adds nothing the registry already holds: an `add` brings a handle and a stored
path that no live slot carries. A `remove` is always admissible. -/
def RegOp.Fresh (r : Registry) : RegOp → Prop
  | .add wd path => wd ∉ handles r ∧ path.take (PATH_MAX - 1) ∉ paths r
  | .remove _ => True

/-- Every call of the sequence is fresh in the state it is applied to. -/
def AllFresh : Registry → List RegOp → Prop
  | _, [] => True
  | r, op :: ops => op.Fresh r ∧ AllFresh (op.apply r) ops

instance (r : Registry) (op : RegOp) : Decidable (op.Fresh r) := by
  cases op <;> unfold RegOp.Fresh <;> infer_instance

instance decAllFresh : (r : Registry) → (ops : List RegOp) → Decidable (AllFresh r ops)
  | _, [] => isTrue trivial
  | r, op :: ops =>
    have := decAllFresh (op.apply r) ops
    inferInstanceAs (Decidable (op.Fresh r ∧ AllFresh (op.apply r) ops))

/-! ## The stat provider (kernel_dirsync_stat.c) and the comparison of snapshots -/

/-- `#define BUFFER_SIZE 4096`. -/
def BUFFER_SIZE : Nat := 4096

/-- Value of `EFAULT` in `<errno.h>` on Linux. -/
def EFAULT : Int := 14

/-- The fields of `struct kstat` that `dirsync_stat` reads: `size` and `mtime.tv_sec`. -/
structure kstat where
  size : Int
  mtime_tv_sec : Int
  deriving DecidableEq, Repr

/-- Lines 22-26 (kernel lines 7-11), `struct dirsync_info`; the C field `exists` is written
`exists_` here. -/
structure dirsync_info where
  exists_ : Int
  size : Int
  mtime : Int
  deriving DecidableEq, Repr

/-- Kernel lines 13-34, `dirsync_stat`. `vfs` is the outcome of `vfs_stat` (`none` when it
fails), `user_ok` tells whether `copy_to_user` succeeds and `info` is what the user record
held before the call. The result is the value returned and the user record after the call. -/
def dirsync_stat (vfs : Option kstat) (user_ok : Bool) (info : dirsync_info) :
    Int × dirsync_info :=
  let kinfo : dirsync_info :=
    match vfs with
    | none => { exists_ := 0, size := 0, mtime := 0 }
    | some stat => { exists_ := 1, size := stat.size, mtime := stat.mtime_tv_sec }
  if !user_ok then (-EFAULT, info) else (0, kinfo)

/-- Lines 79-81, `dirsync_stat_user`: `syscall` turns a negative kernel result into `-1`. -/
def dirsync_stat_user (vfs : Option kstat) (user_ok : Bool) (info : dirsync_info) :
    Int × dirsync_info :=
  let r := dirsync_stat vfs user_ok info
  (if r.1 < 0 then -1 else r.1, r.2)

/-- Lines 112-125, `files_are_different`, on the outcomes of its two `dirsync_stat_user`
calls (value returned, record filled in), the one for `src` first. -/
def files_are_different (src dst : Int × dirsync_info) : Int :=
  if src.1 ≠ 0 then 1
  else if dst.1 ≠ 0 then 1
  else if src.2.size ≠ dst.2.size then 1
  else if src.2.mtime ≠ dst.2.mtime then 1
  else 0

/-! ## The file trees

The source tree and the destination tree are two separate trees of directories, regular
files and other objects (devices, sockets); a symbolic link is seen as what it points to and
there are no dangling ones. A pass does not change the source tree. Entries are reached by
their position in the tree: this is what the program does as long as no path it builds with
`snprintf` is cut at `PATH_MAX`, which the theorems on `sync_directory` assume (`Node.fits`).
The time stamp of a directory is the one it had when it was created or first seen: the pass
never reads the time stamp of a directory it has changed. -/

/-- What the program can observe of a file system object: its size in bytes, its modification
time in seconds, and what the process may do with it. `readable`: open it for reading
(`opendir` for a directory). `writable`: open it for writing; for a directory, create and
remove entries. `searchable`: for a directory, resolve the names in it (`stat`, `access`,
`open` of an entry). -/
structure Meta where
  size : Nat
  mtime : Int
  readable : Bool
  writable : Bool
  searchable : Bool
  deriving DecidableEq, Repr

/-- A file system object: a regular file, a directory with its named entries (the pseudo
entries `.` and `..` are not listed), or something that is neither (`S_ISDIR` and `S_ISREG`
both false). -/
inductive Node where
  | file (m : Meta)
  | dir (m : Meta) (entries : List (CStr × Node))
  | other (m : Meta)
  deriving Repr

/-- What a path refers to for the process: `present` when it resolves to an object, `absent`
when it does not exist and can be created (its parent is a directory the process can search
and write), `unreachable` when it neither resolves nor can be created. -/
inductive Slot where
  | unreachable
  | absent
  | present (n : Node)
  deriving Repr

/-- Metadata of an object. -/
def Node.meta : Node → Meta
  | .file m => m
  | .dir m _ => m
  | .other m => m

/-- `S_ISDIR(st.st_mode)`. -/
def Node.is_dir : Node → Bool
  | .dir _ _ => true
  | _ => false

/-- The entry of that name in a directory listing, first match. -/
def find_entry (name : CStr) : List (CStr × Node) → Option Node
  | [] => none
  | (k, n) :: es => if k = name then some n else find_entry name es

/-- Replace the entry of that name, or append it when there is none. -/
def put_entry (name : CStr) (n : Node) : List (CStr × Node) → List (CStr × Node)
  | [] => [(name, n)]
  | (k, x) :: es => if k = name then (k, n) :: es else (k, x) :: put_entry name n es

/-- What `parent/name` refers to: nothing resolves below an object that is not a directory or
below a directory the process cannot search; a name that is not listed can be created when
the process can write the directory. -/
def child (parent : Slot) (name : CStr) : Slot :=
  match parent with
  | .present (.dir m es) =>
    if !m.searchable then .unreachable
    else
      match find_entry name es with
      | some n => .present n
      | none => if m.writable then .absent else .unreachable
  | _ => .unreachable

/-- The parent after `parent/name` has been created or rewritten and is now `c`; a `c` that is
not an object leaves the parent as it is. -/
def set_child (parent : Slot) (name : CStr) (c : Slot) : Slot :=
  match parent, c with
  | .present (.dir m es), .present n => .present (.dir m (put_entry name n es))
  | _, _ => parent

/-- What a relative path (list of names) refers to, from a starting point. -/
def Slot.walk (s : Slot) (path : List CStr) : Slot :=
  path.foldl child s

/-- The kernel's `vfs_stat` on a path: fails unless the path resolves to an object. -/
def vfs_stat : Slot → Option kstat
  | .present n => some { size := n.meta.size, mtime_tv_sec := n.meta.mtime }
  | _ => none

/-- The snapshot `dirsync_stat_user` delivers for a path, called as the program calls it: with
the address of a local record, which `copy_to_user` can always write. -/
def stat_call (s : Slot) : Int × dirsync_info :=
  dirsync_stat_user (vfs_stat s) true { exists_ := 0, size := 0, mtime := 0 }

/-- What the run cannot decide by itself. `now`: the time stamp (seconds) the kernel gives to
the object at a path when the run writes or creates it. `dir_size`: the size reported for a
new directory. `umask`: the file mode creation mask of the process. `privileged`: the process
overrides permission bits. `read`: how many bytes a `read` on the file at a path returns when
that many bytes of it are left (0 when it fails). `write`: how many bytes of a `write` of that
many bytes to the file at a path are stored (0 when it fails). -/
structure Env where
  now : CStr → Int
  dir_size : Nat
  umask : Nat
  privileged : Bool
  read : CStr → Nat → Nat
  write : CStr → Nat → Nat

/-- A line the program prints: `printf` at lines 109, 207, 210 and `perror` at lines 86, 98,
162. -/
inductive Msg where
  | copied (src dst : CStr)
  | deleted_file (dst : CStr)
  | would_delete_directory (dst : CStr)
  | perror_opendir_src
  | perror_open_source
  | perror_open_dst
  deriving DecidableEq, Repr

/-- The line shows a call of `copy_file`: each call prints exactly one of these. -/
def Msg.is_copy_call : Msg → Bool
  | .copied _ _ => true
  | .perror_open_source => true
  | .perror_open_dst => true
  | _ => false

/-- The line reports a failed `opendir` or `open`. -/
def Msg.is_failure : Msg → Bool
  | .perror_opendir_src => true
  | .perror_open_source => true
  | .perror_open_dst => true
  | _ => false

/-- Lines 74-76, `is_dot_dir`. -/
def is_dot_dir (name : CStr) : Bool :=
  name == ['.'] || name == ['.', '.']

/-- Whether the owner of an object created with `mode` under the mask `umask` has the
permission `bit` (`0400` read, `0200` write, `0100` search). -/
def mode_bit (mode umask bit : Nat) : Bool :=
  decide (mode &&& bit ≠ 0) && decide (umask &&& bit = 0)

/-- Metadata of the directory `mkdir(path, 0755)` creates: the process owns it. -/
def new_dir_meta (env : Env) (path : CStr) : Meta :=
  { size := env.dir_size, mtime := env.now path,
    readable := env.privileged || mode_bit 0o755 env.umask 0o400,
    writable := env.privileged || mode_bit 0o755 env.umask 0o200,
    searchable := env.privileged || mode_bit 0o755 env.umask 0o100 }

/-- Whether the process may later open for writing a file it has created with mode 0644. -/
def Env.file_writable (env : Env) : Bool :=
  env.privileged || mode_bit 0o644 env.umask 0o200

/-- Metadata of the file `open(path, O_WRONLY | O_CREAT | O_TRUNC, 0644)` creates, once
`written` bytes have been stored in it. -/
def new_file_meta (env : Env) (path : CStr) (written : Nat) : Meta :=
  { size := written, mtime := env.now path,
    readable := env.privileged || mode_bit 0o644 env.umask 0o400,
    writable := env.file_writable,
    searchable := false }

/-- `mkdir(path, 0755)`: creates an empty directory when the path is free and can be created;
fails, changing nothing, otherwise (the program ignores the result). -/
def mkdir (env : Env) (path : CStr) : Slot → Slot
  | .absent => .present (.dir (new_dir_meta env path) [])
  | s => s

/-- Lines 89-93: the text of `dst` before its last `/`. -/
def dirname (dst : CStr) : CStr :=
  ((dst.reverse.dropWhile (· ≠ '/')).drop 1).reverse

/-- `open(dst, O_WRONLY | O_CREAT | O_TRUNC, 0644)` succeeds on what `dst` refers to: the
path can be created, or it is a regular file or another object (a device) that the process
may write. A directory refuses it (`EISDIR`). An open that blocks (a FIFO without reader) is
not represented. -/
def dst_open_ok : Slot → Bool
  | .absent => true
  | .present (.file m) => m.writable
  | .present (.other m) => m.writable
  | _ => false

/-- What `dst` refers to after a successful open and the copy loop, `written` bytes having
been stored: a new file, the old file cut and rewritten (its mode stays), or the object that
took the bytes, which stays what it is. -/
def dst_after_copy (env : Env) (dst : CStr) (written : Nat) : Slot → Slot
  | .absent => .present (.file (new_file_meta env dst written))
  | .present (.file m) => .present (.file { m with size := written, mtime := env.now dst })
  | s => s

/-- Lines 100-104, the loop `while ((bytes = read(..)) > 0) write(..)` on byte counts:
`remaining` bytes of the source are unread, `written` bytes are in the destination; `rd` and
`wr` tell what a `read` returns and what a `write` stores (its result is ignored). `fuel`
bounds the number of iterations. -/
def stream_bytes (rd wr : Nat → Nat) : Nat → Nat → Nat → Nat
  | 0, _, written => written
  | fuel + 1, remaining, written =>
    let bytes := min (rd remaining) (min BUFFER_SIZE remaining)
    if bytes > 0 then
      stream_bytes rd wr fuel (remaining - bytes) (written + min (wr bytes) bytes)
    else written

/-- Number of bytes `copy_file(src, dst)` stores in `dst` for a source of `size` bytes. -/
def copied_bytes (env : Env) (src dst : CStr) (size : Nat) : Nat :=
  stream_bytes (env.read src) (env.write dst) (size + 1) size 0

/-- Lines 84-110, `copy_file(src, dst)`, where `m` is the regular file at `src` and `dst` is
`parent/name`. The result is the new state of `parent` and what was printed. -/
def copy_file (env : Env) (src dst : CStr) (m : Meta) (parent : Slot) (name : CStr) :
    Slot × List Msg :=
  if !m.readable then (parent, [.perror_open_source])
  else
    let parent1 := if '/' ∈ dst then mkdir env (dirname dst) parent else parent
    if !dst_open_ok (child parent1 name) then (parent1, [.perror_open_dst])
    else
      (set_child parent1 name
        (dst_after_copy env dst (copied_bytes env src dst m.size) (child parent1 name)),
        [.copied src dst])

/-- `access(src_dir/name, F_OK) == 0`: the process can search `src_dir` (`sx`) and the entry
exists. -/
def src_has (sx : Bool) (src_entries : List (CStr × Node)) (name : CStr) : Bool :=
  sx && (find_entry name src_entries).isSome

/-- Lines 190-215, the deletion loop of `sync_directory` over the entries of `dst_dir`, a
directory with metadata `dm`: what is left of them and what was printed. `stat(dst_path)`
fails when the process cannot search `dst_dir`; `unlink` removes the entry when the process
can write `dst_dir`, and "Deleted file" is printed whether it did or not. -/
def delete_pass (src_dir dst_dir : CStr) (sx : Bool) (src_entries : List (CStr × Node))
    (dm : Meta) : List (CStr × Node) → List (CStr × Node) × List Msg
  | [] => ([], [])
  | (name, n) :: rest =>
    let r := delete_pass src_dir dst_dir sx src_entries dm rest
    if is_dot_dir name then ((name, n) :: r.1, r.2)
    else
      let dst_path := snprintf_path dst_dir name
      if !src_has sx src_entries name then
        if !dm.searchable then ((name, n) :: r.1, r.2)
        else if n.is_dir then ((name, n) :: r.1, .would_delete_directory dst_path :: r.2)
        else if dm.writable then (r.1, .deleted_file dst_path :: r.2)
        else ((name, n) :: r.1, .deleted_file dst_path :: r.2)
      else ((name, n) :: r.1, r.2)

mutual
/-- Lines 160-216, `sync_directory(src_dir, dst_dir)`, where `src` is the object at `src_dir`
and `dst` what `dst_dir` refers to. The result is the new state of `dst_dir` and what was
printed, in order. -/
def sync_directory (env : Env) (src_dir dst_dir : CStr) (src : Node) (dst : Slot) :
    Slot × List Msg :=
  match src with
  | .dir m entries =>
    if !m.readable then (dst, [.perror_opendir_src])
    else
      let r := copy_pass env src_dir dst_dir m.searchable entries (mkdir env dst_dir dst)
      match r.1 with
      | .present (.dir dm des) =>
        if !dm.readable then r
        else
          let d := delete_pass src_dir dst_dir m.searchable entries dm des
          (.present (.dir dm d.1), r.2 ++ d.2)
      | _ => r
  | _ => (dst, [.perror_opendir_src])
/-- Lines 171-187, the copy and update loop of `sync_directory` over the entries of
`src_dir`; `sx` tells whether the process can search `src_dir`, without which
`stat(src_path)` fails and the entry is passed over. -/
def copy_pass (env : Env) (src_dir dst_dir : CStr) (sx : Bool) :
    List (CStr × Node) → Slot → Slot × List Msg
  | [], dst => (dst, [])
  | (name, n) :: rest, dst =>
    if is_dot_dir name then copy_pass env src_dir dst_dir sx rest dst
    else if !sx then copy_pass env src_dir dst_dir sx rest dst
    else
      match n with
      | .dir _ _ =>
        let r := sync_directory env (snprintf_path src_dir name) (snprintf_path dst_dir name) n
          (child dst name)
        let k := copy_pass env src_dir dst_dir sx rest (set_child dst name r.1)
        (k.1, r.2 ++ k.2)
      | .file m =>
        if files_are_different (stat_call (.present n)) (stat_call (child dst name)) ≠ 0 then
          let r := copy_file env (snprintf_path src_dir name) (snprintf_path dst_dir name) m
            dst name
          let k := copy_pass env src_dir dst_dir sx rest r.1
          (k.1, r.2 ++ k.2)
        else copy_pass env src_dir dst_dir sx rest dst
      | .other _ => copy_pass env src_dir dst_dir sx rest dst
end

/-- The path `sync_directory` builds for the entry reached from `root` through the names of
`rel`, one `snprintf` per level (lines 174-175 and the recursive call of line 180). -/
def mirror_path (root : CStr) (rel : List CStr) : CStr :=
  rel.foldl snprintf_path root

/-! ## The inotify watcher and the event loop (lines 218-343) -/

/-- `IN_MODIFY` of `<sys/inotify.h>`. -/
def IN_MODIFY : Nat := 0x00000002
/-- `IN_OPEN` of `<sys/inotify.h>`. -/
def IN_OPEN : Nat := 0x00000020
/-- `IN_MOVED_FROM` of `<sys/inotify.h>`. -/
def IN_MOVED_FROM : Nat := 0x00000040
/-- `IN_MOVED_TO` of `<sys/inotify.h>`. -/
def IN_MOVED_TO : Nat := 0x00000080
/-- `IN_CREATE` of `<sys/inotify.h>`. -/
def IN_CREATE : Nat := 0x00000100
/-- `IN_DELETE` of `<sys/inotify.h>`. -/
def IN_DELETE : Nat := 0x00000200
/-- `IN_DELETE_SELF` of `<sys/inotify.h>`. -/
def IN_DELETE_SELF : Nat := 0x00000400
/-- `IN_ISDIR` of `<sys/inotify.h>`. -/
def IN_ISDIR : Nat := 0x40000000
/-- Value of `EINTR` in `<errno.h>` on Linux. -/
def EINTR : Int := 4
/-- Value of `EIO` in `<errno.h>` on Linux. -/
def EIO : Int := 5

/-- The fields of `struct inotify_event` the loop reads; `name` is meaningful when `len > 0`. -/
structure inotify_event where
  wd : Int
  mask : Nat
  len : Nat
  name : CStr
  deriving DecidableEq, Repr

/-- What the event loop cannot decide by itself while it handles a record: what a path of the
source tree refers to at that moment, and the handle `inotify_add_watch` returns for a path
(`-1` when it fails). -/
structure EventEnv where
  fs : CStr → Slot
  inotify_add_watch : CStr → Int

/-- What the loop body does besides updating the registry: the diagnostic of line 288, the
calls of `inotify_rm_watch` and `handle_file`, and `perror("read")`. -/
inductive Act where
  | no_path_for_wd (wd : Int)
  | rm_watch (wd : Int)
  | handle_file (src_path dst_path : CStr)
  | perror_read
  deriving DecidableEq, Repr

mutual
/-- Lines 219-244, `add_watch_recursive(fd, path)`, where `node` is the object at `path`. -/
def add_watch_recursive (env : EventEnv) (path : CStr) (node : Node) (r : Registry) :
    Registry :=
  if env.inotify_add_watch path = -1 then r
  else
    match node with
    | .dir m entries =>
      if !m.readable then add_wd_to_map r (env.inotify_add_watch path) path
      else
        add_watch_entries env path m.searchable entries
          (add_wd_to_map r (env.inotify_add_watch path) path)
    | _ => add_wd_to_map r (env.inotify_add_watch path) path
/-- Lines 233-242, the loop of `add_watch_recursive` over the entries of `path`; `sx` tells
whether the process can search `path`, without which `stat(subpath)` fails. -/
def add_watch_entries (env : EventEnv) (path : CStr) (sx : Bool) :
    List (CStr × Node) → Registry → Registry
  | [], r => r
  | (name, n) :: rest, r =>
    if is_dot_dir name then add_watch_entries env path sx rest r
    else if !sx then add_watch_entries env path sx rest r
    else
      match n with
      | .dir _ _ =>
        add_watch_entries env path sx rest
          (add_watch_recursive env (snprintf_path path name) n r)
      | _ => add_watch_entries env path sx rest r
end

/-- Lines 301-302: `relative_path = src_path + strlen(argv[1])`, then one leading `/` is
skipped. (`argv1` is not longer than `src_path` whenever `parent_path` was registered by
`add_watch_recursive` from `argv[1]`.) -/
def relative_path (argv1 src_path : CStr) : CStr :=
  match src_path.drop argv1.length with
  | '/' :: rest => rest
  | rel => rel

/-- Lines 298-305: the `src_path` and the `dst_path` the loop builds for a record with child
name `name` under `parent_path`. -/
def event_paths (argv1 argv2 parent_path name : CStr) : CStr × CStr :=
  let src_path := snprintf_path parent_path name
  (src_path, snprintf_path argv2 (relative_path argv1 src_path))

/-- `stat(src_path, &st) == 0 && S_ISDIR(st.st_mode)`. -/
def stat_is_dir : Slot → Bool
  | .present n => n.is_dir
  | _ => false

/-- Lines 277-337, the body of the inner loop for one record: the registry after it and what
it did. The effect of `handle_file` on the destination tree is not part of this model; each
call is recorded with its arguments. -/
def process_event (env : EventEnv) (argv1 argv2 : CStr) (r : Registry)
    (event : inotify_event) : Registry × List Act :=
  if event.mask &&& IN_ISDIR ≠ 0 ∧ event.mask &&& IN_OPEN ≠ 0 then (r, [])
  else
    match get_path_from_wd r event.wd with
    | none => (r, [.no_path_for_wd event.wd])
    | some parent_path =>
      if event.len ≠ 0 then
        let p := event_paths argv1 argv2 parent_path event.name
        let s1 : Registry × List Act :=
          if event.mask &&& IN_DELETE_SELF ≠ 0 then
            (remove_wd_from_map r event.wd, [.rm_watch event.wd])
          else (r, [])
        let s2 : Registry × List Act :=
          if event.mask &&& (IN_CREATE ||| IN_MODIFY ||| IN_MOVED_TO) ≠ 0 then
            if stat_is_dir (env.fs p.1) ∧
                (event.mask &&& IN_CREATE ≠ 0 ∨ event.mask &&& IN_MOVED_TO ≠ 0) then
              match env.fs p.1 with
              | .present n => (add_watch_recursive env p.1 n s1.1, [.handle_file p.1 p.2])
              | _ => (s1.1, [.handle_file p.1 p.2])
            else (s1.1, [.handle_file p.1 p.2])
          else (s1.1, [])
        let s3 : List Act :=
          if event.mask &&& (IN_DELETE ||| IN_MOVED_FROM) ≠ 0 then [.handle_file p.1 p.2]
          else []
        (s2.1, s1.2 ++ s2.2 ++ s3)
      else (r, [])

/-- Lines 275-338, the inner loop over the records of one `read`, in delivery order. -/
def process_records (env : EventEnv) (argv1 argv2 : CStr) :
    List inotify_event → Registry → Registry × List Act
  | [], r => (r, [])
  | event :: rest, r =>
    let s := process_event env argv1 argv2 r event
    let k := process_records env argv1 argv2 rest s.1
    (k.1, s.2 ++ k.2)

/-- Outcome of one blocking `read` on the notification channel: a failure with its `errno`,
or a buffer of records. -/
inductive ReadResult where
  | failed (errno : Int)
  | records (events : List inotify_event)
  deriving Repr

/-- State of the event loop after the reads supplied so far: whether it has left the loop
(`break` at line 272), the registry, and what it did. -/
structure LoopState where
  left : Bool
  registry : Registry
  acts : List Act
  deriving Repr

/-- Lines 267-339, the event loop run on a sequence of `read` outcomes; when the sequence is
used up the loop is blocked in `read` (`left = false`). -/
def event_loop (env : EventEnv) (argv1 argv2 : CStr) :
    List ReadResult → Registry → LoopState
  | [], r => { left := false, registry := r, acts := [] }
  | .failed errno :: rest, r =>
    if errno = EINTR then event_loop env argv1 argv2 rest r
    else { left := true, registry := r, acts := [.perror_read] }
  | .records events :: rest, r =>
    let s := process_records env argv1 argv2 events r
    let k := event_loop env argv1 argv2 rest s.1
    { left := k.left, registry := k.registry, acts := s.2 ++ k.acts }

/-- Lines 247-343, `main`: the exit status, or `none` while the process is still blocked in
the event loop. `src` is the object at `argv[1]`, `inotify_init` the value that call returns,
`reads` the outcomes of the `read` calls. The initial `sync_directory(argv[1], argv[2])` acts
on the destination tree only and is given by `sync_directory` above. -/
def main (env : EventEnv) (argc : Int) (argv1 argv2 : CStr) (src : Node) (inotify_init : Int)
    (reads : List ReadResult) : Option Int :=
  if argc ≠ 3 then some 1
  else if inotify_init < 0 then some 1
  else
    let r := add_watch_recursive env argv1 src Registry.empty
    if (event_loop env argv1 argv2 reads r).left then some 0 else none

/-! ## Auxiliary definitions for the proofs on `sync_directory` -/

/-- Effect of `copy_file` seen from the destination path itself: `c` is what `dst` refers to
when the parent directory needs no `mkdir`. -/
def copy_to_slot (env : Env) (src dst : CStr) (m : Meta) (c : Slot) : Slot × List Msg :=
  if !m.readable then (c, [.perror_open_source])
  else if !dst_open_ok c then (c, [.perror_open_dst])
  else (dst_after_copy env dst (copied_bytes env src dst m.size) c, [.copied src dst])

/-- Effect of one iteration of the copy loop seen from the destination entry: `n` is the
source entry `name` and `c` what `dst_dir/name` refers to. -/
def entry_result (env : Env) (src_dir dst_dir : CStr) (sx : Bool) (name : CStr) (n : Node)
    (c : Slot) : Slot × List Msg :=
  if !sx then (c, [])
  else
    match n with
    | .dir _ _ =>
      sync_directory env (snprintf_path src_dir name) (snprintf_path dst_dir name) n c
    | .file m =>
      if files_are_different (stat_call (.present n)) (stat_call c) ≠ 0 then
        copy_to_slot env (snprintf_path src_dir name) (snprintf_path dst_dir name) m c
      else (c, [])
    | .other _ => (c, [])

/-- Lines 190-215 applied to the outcome `r` of the copy loop: the deletion loop runs when
`dst_dir` can be opened as a directory. -/
def after_copy (src_dir dst_dir : CStr) (sx : Bool) (entries : List (CStr × Node))
    (r : Slot × List Msg) : Slot × List Msg :=
  match r.1 with
  | .present (.dir dm des) =>
    if !dm.readable then r
    else
      (.present (.dir dm (delete_pass src_dir dst_dir sx entries dm des).1),
        r.2 ++ (delete_pass src_dir dst_dir sx entries dm des).2)
  | _ => r

mutual
/-- Well-formed tree: in every directory the names are pairwise distinct and none of them is
`.` or `..`. -/
def Node.well_formed : Node → Bool
  | .dir _ entries => entries_well_formed entries
  | _ => true
/-- Well-formed directory listing. -/
def entries_well_formed : List (CStr × Node) → Bool
  | [] => true
  | (name, n) :: rest =>
    !is_dot_dir name && (find_entry name rest).isNone && n.well_formed &&
      entries_well_formed rest
end

mutual
/-- No path that `sync_directory(src_dir, dst_dir)` builds for the entries of the tree is cut:
each `src_dir/name` and `dst_dir/name` is shorter than `PATH_MAX`, at every level. -/
def Node.fits (src_dir dst_dir : CStr) : Node → Bool
  | .dir _ entries => entries_fit src_dir dst_dir entries
  | _ => true
/-- The paths built for the entries of one directory, and below them, are not cut. -/
def entries_fit (src_dir dst_dir : CStr) : List (CStr × Node) → Bool
  | [] => true
  | (name, n) :: rest =>
    decide ((src_dir ++ '/' :: name).length < PATH_MAX) &&
      decide ((dst_dir ++ '/' :: name).length < PATH_MAX) &&
      n.fits (snprintf_path src_dir name) (snprintf_path dst_dir name) &&
      entries_fit src_dir dst_dir rest
end

mutual
/-- The process can write every directory of the tree (create and remove entries in it). -/
def Node.dirs_writable : Node → Bool
  | .dir m entries => m.writable && entries_dirs_writable entries
  | _ => true
/-- The process can write every directory below the entries of a listing. -/
def entries_dirs_writable : List (CStr × Node) → Bool
  | [] => true
  | (_, n) :: rest => n.dirs_writable && entries_dirs_writable rest
end

/-- The process can write every directory of what the slot holds. -/
def Slot.dirs_writable : Slot → Bool
  | .present n => n.dirs_writable
  | _ => true

/-- The text `mirror_path` appends to the root when nothing is cut. -/
def rel_text : List CStr → CStr
  | [] => []
  | c :: cs => '/' :: c ++ rel_text cs

/-! ## Registry lemmas -/

theorem wd_index_none {l : List wd_map_t} {wd : Int} (h : wd_index l wd = none) :
    ∀ x ∈ l, x.wd ≠ wd := by
  induction l with
  | nil => simp
  | cons e es ih =>
    simp only [wd_index] at h
    split at h
    · simp at h
    · rename_i hne
      simp only [Option.map_eq_none'] at h
      intro x hx
      rcases List.mem_cons.1 hx with rfl | hx
      · exact hne
      · exact ih h x hx

theorem wd_index_some {l : List wd_map_t} {wd : Int} {i : Nat} (h : wd_index l wd = some i) :
    ∃ a e b, l = a ++ e :: b ∧ a.length = i ∧ e.wd = wd ∧ ∀ x ∈ a, x.wd ≠ wd := by
  induction l generalizing i with
  | nil => simp [wd_index] at h
  | cons e es ih =>
    simp only [wd_index] at h
    split at h
    · rename_i heq
      simp only [Option.some.injEq] at h
      exact ⟨[], e, es, by simp, by simpa using h, heq, by simp⟩
    · rename_i hne
      simp only [Option.map_eq_some'] at h
      obtain ⟨j, hj, rfl⟩ := h
      obtain ⟨a, e', b, rfl, hlen, hwd, hall⟩ := ih hj
      refine ⟨e :: a, e', b, by simp, by simp [hlen], hwd, ?_⟩
      intro x hx
      rcases List.mem_cons.1 hx with rfl | hx
      · exact hne
      · exact hall x hx

theorem lookup_wd_none_of_forall {l : List wd_map_t} {wd : Int} (h : ∀ x ∈ l, x.wd ≠ wd) :
    lookup_wd l wd = none := by
  induction l with
  | nil => rfl
  | cons e es ih =>
    have h1 : e.wd ≠ wd := h e (List.mem_cons_self _ _)
    simp only [lookup_wd, h1, if_false]
    exact ih (fun x hx => h x (List.mem_cons_of_mem _ hx))

theorem lookup_wd_append {l m : List wd_map_t} {wd : Int} :
    lookup_wd (l ++ m) wd = (lookup_wd l wd).orElse (fun _ => lookup_wd m wd) := by
  induction l with
  | nil => simp [lookup_wd]
  | cons e es ih =>
    simp only [List.cons_append, lookup_wd]
    split
    · simp
    · exact ih

/-- The list left by the swap-and-pop, in terms of the split around the removed slot. -/
theorem swap_pop_split (a b : List wd_map_t) (e : wd_map_t) :
    ∀ last, (a ++ e :: b)[(a ++ e :: b).length - 1]? = some last →
      (((a ++ e :: b).set a.length last).dropLast = a ∧ b = []) ∨
      (∃ b', b = b' ++ [last] ∧ ((a ++ e :: b).set a.length last).dropLast = a ++ last :: b') := by
  intro last hlast
  rcases List.eq_nil_or_concat b with rfl | ⟨b', z, hb⟩
  · left
    simp
  · right
    rw [List.concat_eq_append] at hb
    subst hb
    have hz : z = last := by
      have : (a ++ e :: (b' ++ [z])) = (a ++ e :: b') ++ [z] := by simp
      rw [← List.getLast?_eq_getElem?, this, List.getLast?_concat] at hlast
      exact Option.some.inj hlast
    subst hz
    refine ⟨b', rfl, ?_⟩
    have h1 : (a ++ e :: (b' ++ [z])).set a.length z = (a ++ z :: b') ++ [z] := by
      simp
    rw [h1, List.dropLast_concat]

theorem lookup_wd_eq_some_iff {l : List wd_map_t} (hnd : (l.map (·.wd)).Nodup) (w : Int)
    (p : CStr) : lookup_wd l w = some p ↔ (⟨w, p⟩ : wd_map_t) ∈ l := by
  induction l with
  | nil => simp [lookup_wd]
  | cons e es ih =>
    simp only [List.map_cons, List.nodup_cons, List.mem_map, not_exists, not_and] at hnd
    obtain ⟨hnot, hes⟩ := hnd
    simp only [lookup_wd, List.mem_cons]
    constructor
    · intro h
      split at h
      · rename_i heq
        left
        cases e
        simp only [Option.some.injEq] at h
        simp only at heq
        simp [h, heq]
      · exact Or.inr ((ih hes).1 h)
    · rintro (h | h)
      · subst h
        simp
      · have hne : e.wd ≠ w := fun heq => hnot ⟨w, p⟩ h heq.symm
        simp only [hne, if_false]
        exact (ih hes).2 h

theorem lookup_wd_perm {l₁ l₂ : List wd_map_t} (hp : l₁.Perm l₂)
    (hnd : (l₁.map (·.wd)).Nodup) (w : Int) : lookup_wd l₁ w = lookup_wd l₂ w := by
  have hnd2 : (l₂.map (·.wd)).Nodup := (hp.map _).nodup_iff.1 hnd
  apply Option.ext
  intro p
  simp only [Option.mem_def]
  rw [lookup_wd_eq_some_iff hnd, lookup_wd_eq_some_iff hnd2]
  exact hp.mem_iff

/-- A successful removal leaves a rearrangement of the other live slots. -/
theorem remove_wd_from_map_perm (r : Registry) (h : Int) {i : Nat}
    (hi : wd_index r.wd_map h = some i) :
    ∃ e, e.wd = h ∧ r.wd_map.Perm (e :: (remove_wd_from_map r h).wd_map) := by
  obtain ⟨a, e, b, hl, hlen, hwd, -⟩ := wd_index_some hi
  refine ⟨e, hwd, ?_⟩
  have hlast : ∃ last, r.wd_map[wd_count r - 1]? = some last := by
    have : wd_count r - 1 < r.wd_map.length := by
      simp only [wd_count, hl, List.length_append, List.length_cons]
      omega
    exact ⟨_, List.getElem?_eq_getElem this⟩
  obtain ⟨last, hlast⟩ := hlast
  simp only [remove_wd_from_map, hi, hlast]
  simp only [wd_count, hl] at hlast
  rw [hl, ← hlen]
  rcases swap_pop_split a b e last hlast with ⟨h1, rfl⟩ | ⟨b', rfl, h1⟩
  · rw [h1]
    exact List.perm_append_singleton e a
  · rw [h1]
    refine List.perm_middle.trans (List.Perm.cons e ?_)
    refine List.Perm.append_left a ?_
    exact (List.perm_append_comm : (b' ++ [last]).Perm ([last] ++ b'))

theorem remove_wd_from_map_absent (r : Registry) (h : Int)
    (hi : wd_index r.wd_map h = none) : remove_wd_from_map r h = r := by
  simp [remove_wd_from_map, hi]

theorem wd_index_isSome_iff (l : List wd_map_t) (h : Int) :
    (wd_index l h).isSome ↔ h ∈ l.map (·.wd) := by
  induction l with
  | nil => simp [wd_index]
  | cons e es ih =>
    simp only [wd_index, List.map_cons, List.mem_cons]
    split
    · rename_i heq
      simp [heq]
    · rename_i hne
      rw [Option.isSome_map', ih]
      constructor
      · exact Or.inr
      · rintro (h1 | h1)
        · exact absurd h1.symm hne
        · exact h1

/-! ## Theorems on the registry -/

/-- C6. With pairwise distinct handles, `remove_wd_from_map h` makes the lookup of `h` fail,
lowers `wd_count` by exactly one when `h` was registered and leaves it unchanged otherwise, and
leaves the lookup of every other handle as it was. -/
theorem remove_wd_from_map_exact (r : Registry) (h : Int) (hnd : (handles r).Nodup) :
    get_path_from_wd (remove_wd_from_map r h) h = none ∧
    (h ∈ handles r → wd_count (remove_wd_from_map r h) + 1 = wd_count r) ∧
    (h ∉ handles r → wd_count (remove_wd_from_map r h) = wd_count r) ∧
    ∀ h', h' ≠ h →
      get_path_from_wd (remove_wd_from_map r h) h' = get_path_from_wd r h' := by
  cases hi : wd_index r.wd_map h with
  | none =>
    have hall := wd_index_none hi
    rw [remove_wd_from_map_absent r h hi]
    refine ⟨lookup_wd_none_of_forall hall, ?_, fun _ => rfl, fun _ _ => rfl⟩
    intro hmem
    simp only [handles, List.mem_map] at hmem
    obtain ⟨x, hx, hxw⟩ := hmem
    exact absurd hxw (hall x hx)
  | some i =>
    obtain ⟨e, hwd, hperm⟩ := remove_wd_from_map_perm r h hi
    have hnd2 : ((e :: (remove_wd_from_map r h).wd_map).map (·.wd)).Nodup :=
      (hperm.map _).nodup_iff.1 hnd
    simp only [List.map_cons, List.nodup_cons, List.mem_map, not_exists, not_and] at hnd2
    have hmem : h ∈ handles r := by
      have := (wd_index_isSome_iff r.wd_map h).1 (by simp [hi])
      exact this
    refine ⟨?_, ?_, fun hn => absurd hmem hn, ?_⟩
    · apply lookup_wd_none_of_forall
      intro x hx hxw
      exact hnd2.1 x hx (hxw.trans hwd.symm)
    · intro _
      have := hperm.length_eq
      simp only [List.length_cons] at this
      simp only [wd_count]
      omega
    · intro h' hne
      have := lookup_wd_perm hperm hnd h'
      simp only [get_path_from_wd]
      rw [this]
      have hne2 : e.wd ≠ h' := fun heq => hne (heq.symm.trans hwd)
      simp [lookup_wd, hne2]

/-- Witness for C6: handle 2, the last of three live slots, is removed. -/
theorem remove_wd_from_map_exact_witness :
    (handles ⟨[⟨1, ['a']⟩, ⟨3, ['b']⟩, ⟨2, ['c']⟩]⟩).Nodup ∧
    get_path_from_wd (remove_wd_from_map ⟨[⟨1, ['a']⟩, ⟨3, ['b']⟩, ⟨2, ['c']⟩]⟩ 2) 2 = none ∧
    wd_count (remove_wd_from_map ⟨[⟨1, ['a']⟩, ⟨3, ['b']⟩, ⟨2, ['c']⟩]⟩ 2) + 1
      = wd_count ⟨[⟨1, ['a']⟩, ⟨3, ['b']⟩, ⟨2, ['c']⟩]⟩ ∧
    get_path_from_wd (remove_wd_from_map ⟨[⟨1, ['a']⟩, ⟨3, ['b']⟩, ⟨2, ['c']⟩]⟩ 2) 3
      = some ['b'] :=
  have h := remove_wd_from_map_exact ⟨[⟨1, ['a']⟩, ⟨3, ['b']⟩, ⟨2, ['c']⟩]⟩ 2 (by decide)
  ⟨by decide, h.1, h.2.1 (by decide), (h.2.2.2 3 (by decide)).trans (by decide)⟩

/-- Counterexample to C5 as stated: handle 1 is registered under `a`, is added again under
`b`, and the lookup still answers `a`. -/
theorem add_wd_to_map_stale_lookup :
    wd_count ⟨[⟨1, ['a']⟩]⟩ < MAX_WATCHES ∧ ['b'].length < PATH_MAX ∧
    get_path_from_wd (add_wd_to_map ⟨[⟨1, ['a']⟩]⟩ 1 ['b']) 1 = some ['a'] ∧
    get_path_from_wd (add_wd_to_map ⟨[⟨1, ['a']⟩]⟩ 1 ['b']) 1 ≠ some ['b'] := by
  decide

theorem lookup_wd_ne_none_of_mem {l : List wd_map_t} {x : wd_map_t} (hx : x ∈ l) :
    lookup_wd l x.wd ≠ none := by
  induction l with
  | nil => cases hx
  | cons e es ih =>
    simp only [lookup_wd]
    split
    · simp
    · rename_i hne
      rcases List.mem_cons.1 hx with rfl | h1
      · exact absurd rfl hne
      · exact ih h1

/-- A handle that is already registered keeps the path of its first slot when it is added
again. -/
theorem add_wd_to_map_registered (r : Registry) (wd : Int) (path : CStr)
    (hm : wd ∈ handles r) :
    get_path_from_wd (add_wd_to_map r wd path) wd = get_path_from_wd r wd := by
  simp only [add_wd_to_map]
  split
  · simp only [get_path_from_wd, lookup_wd_append]
    simp only [handles, List.mem_map] at hm
    obtain ⟨x, hx, rfl⟩ := hm
    cases hlk : lookup_wd r.wd_map x.wd with
    | some p => simp
    | none => exact absurd hlk (lookup_wd_ne_none_of_mem hx)
  · rfl

/-- C5, amended. With room in the registry, a handle `wd` that is not registered yet and a
path shorter than `PATH_MAX`, the lookup after `add_wd_to_map wd path` returns exactly
`path`. -/
theorem add_wd_to_map_lookup (r : Registry) (wd : Int) (path : CStr)
    (hroom : wd_count r < MAX_WATCHES) (hlen : path.length < PATH_MAX)
    (hfresh : wd ∉ handles r) :
    get_path_from_wd (add_wd_to_map r wd path) wd = some path := by
  have htake : path.take (PATH_MAX - 1) = path := by
    apply List.take_of_length_le
    omega
  simp only [add_wd_to_map, hroom, if_true, get_path_from_wd, htake, lookup_wd_append]
  have : lookup_wd r.wd_map wd = none := by
    apply lookup_wd_none_of_forall
    intro x hx hxw
    exact hfresh (List.mem_map.2 ⟨x, hx, hxw⟩)
  simp [this, lookup_wd]

/-- Witness for the amended C5: the fresh handle 2 is added next to handle 1. -/
theorem add_wd_to_map_lookup_witness :
    wd_count ⟨[⟨1, ['a']⟩]⟩ < MAX_WATCHES ∧ ['b'].length < PATH_MAX ∧
    2 ∉ handles ⟨[⟨1, ['a']⟩]⟩ ∧
    get_path_from_wd (add_wd_to_map ⟨[⟨1, ['a']⟩]⟩ 2 ['b']) 2 = some ['b'] :=
  ⟨by decide, by decide, by decide,
    add_wd_to_map_lookup ⟨[⟨1, ['a']⟩]⟩ 2 ['b'] (by decide) (by decide) (by decide)⟩

/-- Counterexample to C7 as stated: two `add` calls with the same handle leave two live slots
with that handle, and two `add` calls with the same path leave two live slots with that path. -/
theorem unique_broken_by_add :
    ¬ (handles (run_ops Registry.empty [.add 1 ['a'], .add 1 ['b']])).Nodup ∧
    ¬ (paths (run_ops Registry.empty [.add 1 ['a'], .add 2 ['a']])).Nodup ∧
    ¬ Unique (run_ops Registry.empty [.add 1 ['a'], .add 1 ['a']]) := by
  decide

theorem unique_remove (r : Registry) (wd : Int) (hu : Unique r) :
    Unique (remove_wd_from_map r wd) := by
  cases hi : wd_index r.wd_map wd with
  | none => rw [remove_wd_from_map_absent r wd hi]; exact hu
  | some i =>
    obtain ⟨e, -, hperm⟩ := remove_wd_from_map_perm r wd hi
    have h1 := (hperm.map (fun x : wd_map_t => x.wd)).nodup_iff.1 hu.1
    have h2 := (hperm.map (fun x : wd_map_t => x.path)).nodup_iff.1 hu.2
    simp only [List.map_cons, List.nodup_cons] at h1 h2
    exact ⟨h1.2, h2.2⟩

theorem unique_add (r : Registry) (wd : Int) (path : CStr) (hu : Unique r)
    (hf : (RegOp.add wd path).Fresh r) : Unique (add_wd_to_map r wd path) := by
  simp only [add_wd_to_map]
  split
  · simp only [RegOp.Fresh, handles, paths] at hf
    simp only [Unique, handles, paths, List.map_append, List.map_cons, List.map_nil]
    refine ⟨List.Nodup.append hu.1 (List.nodup_singleton _) ?_,
      List.Nodup.append hu.2 (List.nodup_singleton _) ?_⟩
    · simpa [List.disjoint_singleton] using hf.1
    · simpa [List.disjoint_singleton] using hf.2
  · exact hu

/-- C7, amended. `remove_wd_from_map` preserves "handles are unique and paths are unique" for
every argument and `add_wd_to_map` preserves it when the handle and the stored path are not
already carried by a live slot: from a registry with unique handles and paths (the empty one
in particular), every sequence of calls whose `add` calls are all of that kind ends in a
registry with unique handles and unique paths. -/
theorem unique_of_fresh_ops (r : Registry) (ops : List RegOp) (hu : Unique r)
    (hf : AllFresh r ops) : Unique (run_ops r ops) := by
  induction ops generalizing r with
  | nil => exact hu
  | cons op ops ih =>
    obtain ⟨h1, h2⟩ := hf
    have hstep : Unique (op.apply r) := by
      cases op with
      | add wd path => exact unique_add r wd path hu h1
      | remove wd => exact unique_remove r wd hu
    exact ih (op.apply r) hstep h2

/-- Witness for the amended C7: from the empty registry, two fresh additions followed by a
removal. -/
theorem unique_of_fresh_ops_witness :
    Unique Registry.empty ∧
    AllFresh Registry.empty [.add 1 ['a'], .add 2 ['b'], .remove 1] ∧
    Unique (run_ops Registry.empty [.add 1 ['a'], .add 2 ['b'], .remove 1]) :=
  ⟨by decide, by decide,
    unique_of_fresh_ops Registry.empty [.add 1 ['a'], .add 2 ['b'], .remove 1] (by decide)
      (by decide)⟩

/-! ## Snapshots -/

/-- C8, evaluation at the failing input. The source is an empty regular file last modified at
second 0 and the destination does not exist: both calls of `dirsync_stat_user` return 0, the
destination record has `exists_ = 0`, and `files_are_different` answers 0. -/
theorem files_are_different_absent_destination :
    dirsync_stat_user (some ⟨0, 0⟩) true ⟨0, 0, 0⟩ = (0, ⟨1, 0, 0⟩) ∧
    dirsync_stat_user none true ⟨0, 0, 0⟩ = (0, ⟨0, 0, 0⟩) ∧
    files_are_different (dirsync_stat_user (some ⟨0, 0⟩) true ⟨0, 0, 0⟩)
      (dirsync_stat_user none true ⟨0, 0, 0⟩) = 0 := by
  decide

/-! ## The event loop -/

/-- A record without child name (`len = 0`) never changes the registry: every update of the
registry sits inside `if (event->len)`. -/
theorem process_event_without_name (env : EventEnv) (argv1 argv2 : CStr) (r : Registry)
    (event : inotify_event) (hlen : event.len = 0) :
    (process_event env argv1 argv2 r event).1 = r := by
  simp only [process_event, hlen]
  split
  · rfl
  · cases get_path_from_wd r event.wd <;> simp

/-- A `read` interrupted by a signal is retried: the loop goes on with the next `read`,
nothing is processed and the registry is unchanged. -/
theorem event_loop_retries_interrupted_read (env : EventEnv) (argv1 argv2 : CStr)
    (rest : List ReadResult) (r : Registry) :
    event_loop env argv1 argv2 (.failed EINTR :: rest) r = event_loop env argv1 argv2 rest r := by
  simp [event_loop]

/-- Any other failure of `read` ends the loop, and `main` then returns 0. -/
theorem main_status_after_failed_read (env : EventEnv) (argv1 argv2 : CStr) (src : Node)
    (fd errno : Int) (rest : List ReadResult) (hfd : 0 ≤ fd) (herr : errno ≠ EINTR) :
    main env 3 argv1 argv2 src fd (.failed errno :: rest) = some 0 := by
  have h : ¬ fd < 0 := by omega
  simp [main, event_loop, herr, h]

/-- C4, evaluation at the failing input. Handle 1 is registered for `src`; the record has
`IN_DELETE_SELF` set and no child name (`len = 0`). After the loop body the handle is still
registered and `wd_count` is still 1, and nothing was done. -/
theorem process_event_delete_self_without_name :
    get_path_from_wd ⟨[⟨1, ['s', 'r', 'c']⟩]⟩ 1 = some ['s', 'r', 'c'] ∧
    get_path_from_wd
      (process_event ⟨fun _ => .absent, fun _ => -1⟩ ['s', 'r', 'c'] ['d', 's', 't']
        ⟨[⟨1, ['s', 'r', 'c']⟩]⟩ ⟨1, IN_DELETE_SELF, 0, []⟩).1 1 = some ['s', 'r', 'c'] ∧
    wd_count
      (process_event ⟨fun _ => .absent, fun _ => -1⟩ ['s', 'r', 'c'] ['d', 's', 't']
        ⟨[⟨1, ['s', 'r', 'c']⟩]⟩ ⟨1, IN_DELETE_SELF, 0, []⟩).1 = 1 ∧
    (process_event ⟨fun _ => .absent, fun _ => -1⟩ ['s', 'r', 'c'] ['d', 's', 't']
        ⟨[⟨1, ['s', 'r', 'c']⟩]⟩ ⟨1, IN_DELETE_SELF, 0, []⟩).2 = [] := by
  decide

/-- C10, evaluation at the failing input. `main` is started with two arguments, `inotify_init`
returns descriptor 3, the first `read` fails with `EINTR` and the second with `EIO`: the
interrupted read is retried, the second failure ends the loop, and `main` returns 0. -/
theorem main_returns_zero_on_read_failure :
    main ⟨fun _ => .absent, fun _ => 1⟩ 3 ['s'] ['d'] (.dir ⟨4096, 0, true, true, true⟩ []) 3
      [.failed EINTR, .failed EIO] = some 0 ∧
    (event_loop ⟨fun _ => .absent, fun _ => 1⟩ ['s'] ['d'] [.failed EINTR, .failed EIO]
      ⟨[⟨1, ['s']⟩]⟩).acts = [.perror_read] ∧
    (event_loop ⟨fun _ => .absent, fun _ => 1⟩ ['s'] ['d'] [.failed EINTR, .failed EIO]
      ⟨[⟨1, ['s']⟩]⟩).registry = ⟨[⟨1, ['s']⟩]⟩ := by
  decide

/-! ## Path reconstruction -/

theorem snprintf_path_fits (a b : CStr) (h : (a ++ '/' :: b).length < PATH_MAX) :
    snprintf_path a b = a ++ '/' :: b := by
  unfold snprintf_path
  apply List.take_of_length_le
  omega

theorem snprintf_path_short (a b : CStr) (h : (snprintf_path a b).length < PATH_MAX - 1) :
    snprintf_path a b = a ++ '/' :: b := by
  unfold snprintf_path at h ⊢
  apply List.take_of_length_le
  rw [List.length_take] at h
  omega

theorem mirror_path_short (comps : List CStr) :
    ∀ root : CStr, (mirror_path root comps).length < PATH_MAX - 1 →
      mirror_path root comps = root ++ rel_text comps := by
  induction comps with
  | nil => intro root _; simp [mirror_path, rel_text]
  | cons c cs ih =>
    intro root h
    have h1 : mirror_path root (c :: cs) = mirror_path (snprintf_path root c) cs := rfl
    rw [h1] at h ⊢
    have h2 := ih _ h
    rw [h2] at h
    have h3 : (snprintf_path root c).length < PATH_MAX - 1 := by
      rw [List.length_append] at h
      omega
    rw [h2, snprintf_path_short root c h3]
    simp [rel_text]

theorem mirror_path_fits (comps : List CStr) :
    ∀ root : CStr, (root ++ rel_text comps).length < PATH_MAX →
      mirror_path root comps = root ++ rel_text comps := by
  induction comps with
  | nil => intro root _; simp [mirror_path, rel_text]
  | cons c cs ih =>
    intro root h
    have h1 : mirror_path root (c :: cs) = mirror_path (snprintf_path root c) cs := rfl
    have h2 : root ++ rel_text (c :: cs) = (root ++ '/' :: c) ++ rel_text cs := by
      simp [rel_text]
    rw [h2] at h ⊢
    have h3 : snprintf_path root c = root ++ '/' :: c := by
      apply snprintf_path_fits
      rw [List.length_append] at h
      omega
    rw [h1, h3]
    exact ih _ h

theorem mirror_path_snoc (root : CStr) (comps : List CStr) (name : CStr) :
    mirror_path root (comps ++ [name]) = snprintf_path (mirror_path root comps) name := by
  simp [mirror_path, List.foldl_append]

theorem relative_path_strip (argv1 relp : CStr) :
    relative_path argv1 (argv1 ++ '/' :: relp) = relp := by
  simp [relative_path]

/-- C9. In the event loop, for a parent path that is the source root or the source root
followed by `/` and a relative directory path, and a non-empty child name, when the source
and destination strings are shorter than `PATH_MAX`: `src_path` is `parent/name`, it has the
form `sourceRoot/relp`, the relative part computed by the loop is that `relp` and `dst_path`
is `destRoot/relp`; and whenever the parent is the path `sync_directory` builds for a
directory (through the names `comps` below the source root), `dst_path` is the path
`sync_directory` builds for the entry `name` of that directory below the destination root. -/
theorem event_paths_mirror (argv1 argv2 parent name : CStr)
    (hparent : parent = argv1 ∨ ∃ rel, parent = argv1 ++ '/' :: rel)
    (hname : name ≠ [])
    (hsrc : (parent ++ '/' :: name).length < PATH_MAX)
    (hdst : ∀ relp, parent ++ '/' :: name = argv1 ++ '/' :: relp →
      (argv2 ++ '/' :: relp).length < PATH_MAX) :
    ∃ relp,
      (event_paths argv1 argv2 parent name).1 = parent ++ '/' :: name ∧
      parent ++ '/' :: name = argv1 ++ '/' :: relp ∧
      relative_path argv1 (event_paths argv1 argv2 parent name).1 = relp ∧
      (event_paths argv1 argv2 parent name).2 = argv2 ++ '/' :: relp ∧
      ∀ comps, parent = mirror_path argv1 comps →
        (event_paths argv1 argv2 parent name).1 = mirror_path argv1 (comps ++ [name]) ∧
        (event_paths argv1 argv2 parent name).2 = mirror_path argv2 (comps ++ [name]) := by
  have _ := hname
  have hex : ∃ relp, parent ++ '/' :: name = argv1 ++ '/' :: relp := by
    rcases hparent with rfl | ⟨rel, rfl⟩
    · exact ⟨name, rfl⟩
    · exact ⟨rel ++ '/' :: name, by simp⟩
  obtain ⟨relp, hrel⟩ := hex
  have hd := hdst relp hrel
  have hs : snprintf_path parent name = parent ++ '/' :: name := snprintf_path_fits _ _ hsrc
  have h2 : (event_paths argv1 argv2 parent name).2 = argv2 ++ '/' :: relp := by
    simp only [event_paths, hs, hrel, relative_path_strip]
    exact snprintf_path_fits _ _ hd
  refine ⟨relp, by simp [event_paths, hs], hrel, ?_, h2, ?_⟩
  · simp only [event_paths, hs, hrel, relative_path_strip]
  · intro comps hc
    have hplen : parent.length < PATH_MAX - 1 := by
      simp only [List.length_append, List.length_cons] at hsrc
      omega
    have hp : parent = argv1 ++ rel_text comps := by
      rw [hc] at hplen ⊢
      exact mirror_path_short comps argv1 hplen
    refine ⟨by rw [mirror_path_snoc, ← hc]; simp [event_paths], ?_⟩
    rw [h2, mirror_path_snoc]
    have hrelp : '/' :: relp = rel_text comps ++ '/' :: name := by
      rw [hp, List.append_assoc] at hrel
      exact (List.append_cancel_left hrel).symm
    have hm : mirror_path argv2 comps = argv2 ++ rel_text comps := by
      apply mirror_path_fits
      have : (argv2 ++ '/' :: relp).length = (argv2 ++ rel_text comps).length + 1 + name.length := by
        rw [hrelp]; simp; omega
      omega
    rw [hm, snprintf_path_fits]
    · rw [hrelp]; simp
    · have : (argv2 ++ rel_text comps ++ '/' :: name) = argv2 ++ '/' :: relp := by
        rw [hrelp]; simp
      rw [this]; exact hd

/-- Witness for C9: the record names `b` under the watched directory `src/sub`. -/
theorem event_paths_mirror_witness :
    ∃ relp,
      (event_paths ['s', 'r', 'c'] ['d', 's', 't'] ['s', 'r', 'c', '/', 's', 'u', 'b'] ['b']).1
        = ['s', 'r', 'c', '/', 's', 'u', 'b'] ++ '/' :: ['b'] ∧
      ['s', 'r', 'c', '/', 's', 'u', 'b'] ++ '/' :: ['b'] = ['s', 'r', 'c'] ++ '/' :: relp ∧
      relative_path ['s', 'r', 'c']
        (event_paths ['s', 'r', 'c'] ['d', 's', 't'] ['s', 'r', 'c', '/', 's', 'u', 'b']
          ['b']).1 = relp ∧
      (event_paths ['s', 'r', 'c'] ['d', 's', 't'] ['s', 'r', 'c', '/', 's', 'u', 'b'] ['b']).2
        = ['d', 's', 't'] ++ '/' :: relp ∧
      ∀ comps, ['s', 'r', 'c', '/', 's', 'u', 'b'] = mirror_path ['s', 'r', 'c'] comps →
        (event_paths ['s', 'r', 'c'] ['d', 's', 't'] ['s', 'r', 'c', '/', 's', 'u', 'b']
          ['b']).1 = mirror_path ['s', 'r', 'c'] (comps ++ [['b']]) ∧
        (event_paths ['s', 'r', 'c'] ['d', 's', 't'] ['s', 'r', 'c', '/', 's', 'u', 'b']
          ['b']).2 = mirror_path ['d', 's', 't'] (comps ++ [['b']]) :=
  event_paths_mirror ['s', 'r', 'c'] ['d', 's', 't'] ['s', 'r', 'c', '/', 's', 'u', 'b'] ['b']
    (Or.inr ⟨['s', 'u', 'b'], rfl⟩) (by decide) (by decide)
    (by
      intro relp h
      have h1 : relp = ['s', 'u', 'b', '/', 'b'] := by
        have h2 : ['s', 'r', 'c'] ++ '/' :: ['s', 'u', 'b', '/', 'b'] = ['s', 'r', 'c'] ++ '/' :: relp := h
        have h3 := List.append_cancel_left h2
        exact (List.cons.inj h3).2.symm
      subst h1
      decide)

/-! ## Directory listings -/

/-- Induction over trees: a property of files and of other objects that passes from the
entries of a directory to the directory holds of every object. -/
theorem Node.induct (P : Node → Prop) (hfile : ∀ m, P (.file m)) (hother : ∀ m, P (.other m))
    (hdir : ∀ m es, (∀ p ∈ es, P p.2) → P (.dir m es)) : ∀ n, P n := by
  intro n
  refine @Node.rec P (fun es => ∀ p ∈ es, P p.2) (fun p => P p.2) hfile ?_ hother ?_ ?_ ?_ n
  · intro m es ih; exact hdir m es ih
  · intro p hp; cases hp
  · intro hd tl h1 h2 p hp
    rcases List.mem_cons.1 hp with rfl | hp
    · exact h1
    · exact h2 p hp
  · intro a n h; exact h

theorem find_put_other (name name' : CStr) (n : Node) (es : List (CStr × Node))
    (hne : name' ≠ name) :
    find_entry name' (put_entry name n es) = find_entry name' es := by
  induction es with
  | nil =>
    have : name ≠ name' := fun h => hne h.symm
    simp [put_entry, find_entry, this]
  | cons e es ih =>
    obtain ⟨k, x⟩ := e
    have hne' : name ≠ name' := fun h => hne h.symm
    by_cases h : k = name
    · subst h
      simp [put_entry, find_entry, hne']
    · by_cases h2 : k = name'
      · subst h2
        simp [put_entry, find_entry, h]
      · simp [put_entry, find_entry, h, h2, ih]

theorem put_find_same (name : CStr) (n : Node) (es : List (CStr × Node))
    (h : find_entry name es = some n) : put_entry name n es = es := by
  induction es with
  | nil => simp [find_entry] at h
  | cons e es ih =>
    obtain ⟨k, x⟩ := e
    by_cases hk : k = name
    · simp only [find_entry, hk, if_true, Option.some.injEq] at h
      simp [put_entry, hk, h]
    · simp only [find_entry, hk, if_false] at h
      simp [put_entry, hk, ih h]

theorem child_eq_present {p : Slot} {name : CStr} {n : Node} (h : child p name = .present n) :
    ∃ m es, p = .present (.dir m es) ∧ m.searchable = true ∧ find_entry name es = some n := by
  cases p with
  | unreachable => simp [child] at h
  | absent => simp [child] at h
  | present x =>
    cases x with
    | file m => simp [child] at h
    | other m => simp [child] at h
    | dir m es =>
      refine ⟨m, es, rfl, ?_⟩
      simp only [child] at h
      by_cases hx : m.searchable = true
      · simp only [hx, Bool.not_true, Bool.false_eq_true, if_false] at h
        cases hf : find_entry name es with
        | none =>
          simp only [hf] at h
          split at h <;> cases h
        | some y =>
          simp only [hf, Slot.present.injEq] at h
          exact ⟨hx, by rw [h]⟩
      · simp [hx] at h

theorem child_dir (m : Meta) (es : List (CStr × Node)) (name : CStr) (n : Node)
    (hx : m.searchable = true) (hf : find_entry name es = some n) :
    child (.present (.dir m es)) name = .present n := by
  simp [child, hx, hf]

/-- Writing back what a path refers to changes nothing. -/
theorem set_child_child (p : Slot) (name : CStr) : set_child p name (child p name) = p := by
  cases hc : child p name with
  | unreachable => cases p <;> simp [set_child]
  | absent => cases p <;> simp [set_child]
  | present n =>
    obtain ⟨m, es, rfl, -, hf⟩ := child_eq_present hc
    simp [set_child, put_find_same _ _ _ hf]

theorem child_set_child_other (p : Slot) (name name' : CStr) (c : Slot) (hne : name' ≠ name) :
    child (set_child p name c) name' = child p name' := by
  cases p with
  | unreachable => cases c <;> rfl
  | absent => cases c <;> rfl
  | present n =>
    cases n with
    | file m => cases c <;> rfl
    | other m => cases c <;> rfl
    | dir m es =>
      cases c with
      | unreachable => rfl
      | absent => rfl
      | present x => simp [set_child, child, find_put_other _ _ _ _ hne]

theorem mkdir_of_ne_absent (env : Env) (path : CStr) (s : Slot) (h : s ≠ .absent) :
    mkdir env path s = s := by
  cases s with
  | absent => exact absurd rfl h
  | unreachable => rfl
  | present n => rfl

theorem mkdir_ne_absent (env : Env) (path : CStr) (s : Slot) : mkdir env path s ≠ .absent := by
  cases s <;> simp [mkdir]

theorem set_child_ne_absent (p : Slot) (name : CStr) (c : Slot) (h : p ≠ .absent) :
    set_child p name c ≠ .absent := by
  cases p with
  | absent => exact absurd rfl h
  | unreachable => cases c <;> simp [set_child]
  | present n =>
    cases n with
    | file m => cases c <;> simp [set_child]
    | other m => cases c <;> simp [set_child]
    | dir m es => cases c <;> simp [set_child]

theorem copy_file_eq (env : Env) (src dst : CStr) (m : Meta) (parent : Slot) (name : CStr)
    (hp : parent ≠ .absent) :
    copy_file env src dst m parent name =
      (set_child parent name (copy_to_slot env src dst m (child parent name)).1,
        (copy_to_slot env src dst m (child parent name)).2) := by
  have hmk : (if '/' ∈ dst then mkdir env (dirname dst) parent else parent) = parent := by
    split
    · exact mkdir_of_ne_absent _ _ _ hp
    · rfl
  simp only [copy_file, copy_to_slot, hmk]
  by_cases hr : m.readable = true
  · by_cases hw : dst_open_ok (child parent name) = true
    · simp [hr, hw]
    · simp [hr, hw, set_child_child]
  · simp [hr, set_child_child]

theorem copy_pass_nil (env : Env) (sd dd : CStr) (sx : Bool) (dst : Slot) :
    copy_pass env sd dd sx [] dst = (dst, []) := by
  simp [copy_pass]

theorem copy_pass_cons (env : Env) (sd dd : CStr) (sx : Bool) (name : CStr) (n : Node)
    (rest : List (CStr × Node)) (dst : Slot) (hdst : dst ≠ .absent) :
    copy_pass env sd dd sx ((name, n) :: rest) dst =
      if is_dot_dir name then copy_pass env sd dd sx rest dst
      else
        ((copy_pass env sd dd sx rest
            (set_child dst name (entry_result env sd dd sx name n (child dst name)).1)).1,
          (entry_result env sd dd sx name n (child dst name)).2 ++
            (copy_pass env sd dd sx rest
              (set_child dst name (entry_result env sd dd sx name n (child dst name)).1)).2) := by
  conv => lhs; unfold copy_pass
  split
  · rfl
  · by_cases hsx : sx = true
    · subst hsx
      simp only [Bool.not_true, Bool.false_eq_true, if_false]
      cases n with
      | dir m es => simp [entry_result]
      | other m => simp [entry_result, set_child_child]
      | file m =>
        simp only [entry_result, Bool.not_true, Bool.false_eq_true, if_false]
        split
        · simp [copy_file_eq _ _ _ _ _ _ hdst]
        · simp [set_child_child]
    · have hsx' : sx = false := by simpa using hsx
      subst hsx'
      simp [entry_result, set_child_child]

theorem sync_directory_dir (env : Env) (sd dd : CStr) (m : Meta) (es : List (CStr × Node))
    (dst : Slot) (hr : m.readable = true) :
    sync_directory env sd dd (.dir m es) dst
      = after_copy sd dd m.searchable es
          (copy_pass env sd dd m.searchable es (mkdir env dd dst)) := by
  rw [sync_directory]
  simp only [hr, Bool.not_true, Bool.false_eq_true, if_false, after_copy]

theorem sync_directory_not_readable (env : Env) (sd dd : CStr) (m : Meta)
    (es : List (CStr × Node)) (dst : Slot) (hr : m.readable = false) :
    sync_directory env sd dd (.dir m es) dst = (dst, [.perror_opendir_src]) := by
  rw [sync_directory]
  simp [hr]

theorem entries_well_formed_cons (name : CStr) (n : Node) (rest : List (CStr × Node)) :
    entries_well_formed ((name, n) :: rest) = true ↔
      is_dot_dir name = false ∧ find_entry name rest = none ∧ n.well_formed = true ∧
        entries_well_formed rest = true := by
  simp [entries_well_formed, Option.isNone_iff_eq_none, and_assoc]

theorem find_entry_none_of_mem {k : CStr} {es : List (CStr × Node)}
    (h : find_entry k es = none) {p : CStr × Node} (hp : p ∈ es) : p.1 ≠ k := by
  induction es with
  | nil => cases hp
  | cons e es ih =>
    obtain ⟨a, x⟩ := e
    by_cases ha : a = k
    · simp [find_entry, ha] at h
    · simp only [find_entry, ha, if_false] at h
      rcases List.mem_cons.1 hp with rfl | hp
      · exact ha
      · exact ih h hp

theorem find_entry_of_mem {es : List (CStr × Node)} (hwf : entries_well_formed es = true)
    {p : CStr × Node} (hp : p ∈ es) :
    find_entry p.1 es = some p.2 ∧ is_dot_dir p.1 = false ∧ p.2.well_formed = true := by
  induction es with
  | nil => cases hp
  | cons e es ih =>
    obtain ⟨a, x⟩ := e
    obtain ⟨hdot, hnone, hx, hrest⟩ := (entries_well_formed_cons a x es).1 hwf
    rcases List.mem_cons.1 hp with rfl | hp
    · simp [find_entry, hdot, hx]
    · have hne : p.1 ≠ a := find_entry_none_of_mem hnone hp
      have hne' : a ≠ p.1 := fun h => hne h.symm
      simp only [find_entry, hne', if_false]
      exact ih hrest hp

/-- What the copy loop prints is what its iterations print, each seen from its own
destination entry as it was before the loop. -/
theorem mem_copy_pass_out (env : Env) (sd dd : CStr) (sx : Bool) (es : List (CStr × Node))
    (hwf : entries_well_formed es = true) :
    ∀ dst, dst ≠ .absent → ∀ msg,
      (msg ∈ (copy_pass env sd dd sx es dst).2 ↔
        ∃ p ∈ es, msg ∈ (entry_result env sd dd sx p.1 p.2 (child dst p.1)).2) := by
  induction es with
  | nil =>
    intro dst _ msg
    simp only [copy_pass_nil, List.not_mem_nil, false_and, exists_false]
  | cons e rest ih =>
    intro dst hdst msg
    obtain ⟨k, x⟩ := e
    obtain ⟨hdot, hnone, -, hrest⟩ := (entries_well_formed_cons k x rest).1 hwf
    rw [copy_pass_cons _ _ _ _ _ _ _ _ hdst]
    simp only [hdot, Bool.false_eq_true, if_false, List.mem_append]
    rw [ih hrest _ (set_child_ne_absent _ _ _ hdst)]
    constructor
    · rintro (h | ⟨p, hp, h⟩)
      · exact ⟨(k, x), List.mem_cons_self _ _, h⟩
      · rw [child_set_child_other _ _ _ _ (find_entry_none_of_mem hnone hp)] at h
        exact ⟨p, List.mem_cons_of_mem _ hp, h⟩
    · rintro ⟨p, hp, h⟩
      rcases List.mem_cons.1 hp with rfl | hp
      · exact Or.inl h
      · refine Or.inr ⟨p, hp, ?_⟩
        rw [child_set_child_other _ _ _ _ (find_entry_none_of_mem hnone hp)]
        exact h

/-! ## The deletion loop -/

theorem delete_pass_out (sd dd : CStr) (sx : Bool) (ses : List (CStr × Node)) (dm : Meta)
    (des : List (CStr × Node)) :
    ∀ msg ∈ (delete_pass sd dd sx ses dm des).2,
      msg.is_copy_call = false ∧ msg.is_failure = false := by
  induction des with
  | nil => intro msg h; simp [delete_pass] at h
  | cons e rest ih =>
    obtain ⟨k, x⟩ := e
    have cons : ∀ (m0 : Msg), m0.is_copy_call = false ∧ m0.is_failure = false →
        ∀ msg ∈ m0 :: (delete_pass sd dd sx ses dm rest).2,
          msg.is_copy_call = false ∧ msg.is_failure = false := by
      intro m0 h0 msg h
      rcases List.mem_cons.1 h with rfl | h
      · exact h0
      · exact ih msg h
    simp only [delete_pass]
    split
    · exact ih
    · split
      · split
        · exact ih
        · split
          · exact cons _ ⟨rfl, rfl⟩
          · split
            · exact cons _ ⟨rfl, rfl⟩
            · exact cons _ ⟨rfl, rfl⟩
      · exact ih

/-- The deletion loop never removes a directory. -/
theorem delete_pass_keeps_directories (sd dd : CStr) (sx : Bool) (ses : List (CStr × Node))
    (dm : Meta) (des : List (CStr × Node)) (p : CStr × Node) (hp : p ∈ des)
    (hd : p.2.is_dir = true) : p ∈ (delete_pass sd dd sx ses dm des).1 := by
  induction des with
  | nil => cases hp
  | cons e rest ih =>
    obtain ⟨k, x⟩ := e
    simp only [delete_pass]
    rcases List.mem_cons.1 hp with rfl | hp
    · simp only at hd
      simp only [hd, if_true]
      split
      · exact List.mem_cons_self _ _
      · split
        · split
          · exact List.mem_cons_self _ _
          · exact List.mem_cons_self _ _
        · exact List.mem_cons_self _ _
    · have h1 := ih hp
      split
      · exact List.mem_cons_of_mem _ h1
      · split
        · split
          · exact List.mem_cons_of_mem _ h1
          · split
            · exact List.mem_cons_of_mem _ h1
            · split
              · exact h1
              · exact List.mem_cons_of_mem _ h1
        · exact List.mem_cons_of_mem _ h1

theorem mem_after_copy (sd dd : CStr) (sx : Bool) (es : List (CStr × Node))
    (r : Slot × List Msg) (msg : Msg) (h : msg ∈ (after_copy sd dd sx es r).2) :
    msg ∈ r.2 ∨ ∃ dm des, r.1 = .present (.dir dm des) ∧ dm.readable = true ∧
      msg ∈ (delete_pass sd dd sx es dm des).2 := by
  simp only [after_copy] at h
  split at h
  · rename_i dm des heq
    split at h
    · exact Or.inl h
    · rename_i hr
      rcases List.mem_append.1 h with h | h
      · exact Or.inl h
      · exact Or.inr ⟨dm, des, heq, by simpa using hr, h⟩
  · exact Or.inl h

/-! ## One regular file -/

theorem walk_cons (s : Slot) (name : CStr) (rest : List CStr) :
    Slot.walk s (name :: rest) = Slot.walk (child s name) rest := rfl

/-- A destination path that holds a device the process may write: the `open` of line 97
succeeds, the pass prints "Copied" and reports no failure, and the path still holds the
device, whose size is 0 and not the 5 bytes of the source file. This is why the theorem on
completeness below leaves out the files whose destination counterpart is a special object. -/
theorem sync_directory_device_destination :
    (sync_directory ⟨fun _ => 200, 4096, 0o022, false, fun _ n => n, fun _ n => n⟩ ['s'] ['d']
        (.dir ⟨4096, 50, true, true, true⟩ [(['a'], .file ⟨5, 100, true, true, true⟩)])
        (.present (.dir ⟨4096, 10, true, true, true⟩
          [(['a'], .other ⟨0, 7, true, true, false⟩)]))).2
      = [.copied ['s', '/', 'a'] ['d', '/', 'a']] ∧
    stat_call (Slot.walk (sync_directory ⟨fun _ => 200, 4096, 0o022, false, fun _ n => n, fun _ n => n⟩ ['s'] ['d']
        (.dir ⟨4096, 50, true, true, true⟩ [(['a'], .file ⟨5, 100, true, true, true⟩)])
        (.present (.dir ⟨4096, 10, true, true, true⟩
          [(['a'], .other ⟨0, 7, true, true, false⟩)]))).1 [['a']])
      = (0, ⟨1, 0, 7⟩) := by
  decide

/-- C3, evaluation at the failing input. The source directory is empty; the destination holds
the regular file `j` and the directory `old` with the file `f` in it. The pass unlinks `j`
but for `old` it only prints "Would delete directory": afterwards `old` and `old/f` are still
there, although the source has no entry `old`. -/
theorem sync_directory_keeps_extra_directory :
    (sync_directory ⟨fun _ => 200, 4096, 0o022, false, fun _ n => n, fun _ n => n⟩ ['s'] ['d'] (.dir ⟨4096, 50, true, true, true⟩ [])
        (.present (.dir ⟨4096, 10, true, true, true⟩
          [(['j'], .file ⟨3, 4, true, true, true⟩),
            (['o', 'l', 'd'], .dir ⟨4096, 20, true, true, true⟩ [(['f'], .file ⟨3, 4, true, true, true⟩)])]))).2
      = [.deleted_file ['d', '/', 'j'], .would_delete_directory ['d', '/', 'o', 'l', 'd']] ∧
    stat_call (Slot.walk (sync_directory ⟨fun _ => 200, 4096, 0o022, false, fun _ n => n, fun _ n => n⟩ ['s'] ['d']
        (.dir ⟨4096, 50, true, true, true⟩ [])
        (.present (.dir ⟨4096, 10, true, true, true⟩
          [(['j'], .file ⟨3, 4, true, true, true⟩),
            (['o', 'l', 'd'], .dir ⟨4096, 20, true, true, true⟩ [(['f'], .file ⟨3, 4, true, true, true⟩)])]))).1
        [['j']]) = (0, ⟨0, 0, 0⟩) ∧
    stat_call (Slot.walk (sync_directory ⟨fun _ => 200, 4096, 0o022, false, fun _ n => n, fun _ n => n⟩ ['s'] ['d']
        (.dir ⟨4096, 50, true, true, true⟩ [])
        (.present (.dir ⟨4096, 10, true, true, true⟩
          [(['j'], .file ⟨3, 4, true, true, true⟩),
            (['o', 'l', 'd'], .dir ⟨4096, 20, true, true, true⟩ [(['f'], .file ⟨3, 4, true, true, true⟩)])]))).1
        [['o', 'l', 'd']]) = (0, ⟨1, 4096, 20⟩) ∧
    stat_call (Slot.walk (sync_directory ⟨fun _ => 200, 4096, 0o022, false, fun _ n => n, fun _ n => n⟩ ['s'] ['d']
        (.dir ⟨4096, 50, true, true, true⟩ [])
        (.present (.dir ⟨4096, 10, true, true, true⟩
          [(['j'], .file ⟨3, 4, true, true, true⟩),
            (['o', 'l', 'd'], .dir ⟨4096, 20, true, true, true⟩ [(['f'], .file ⟨3, 4, true, true, true⟩)])]))).1
        [['o', 'l', 'd'], ['f']]) = (0, ⟨1, 3, 4⟩) ∧
    stat_call (child (.present (.dir ⟨4096, 50, true, true, true⟩ [])) ['o', 'l', 'd'])
      = (0, ⟨0, 0, 0⟩) := by
  decide

/-! ## Two passes in a row -/

theorem entry_result_no_search (env : Env) (sd dd name : CStr) (n : Node) (c : Slot) :
    entry_result env sd dd false name n c = (c, []) := by
  simp [entry_result]

theorem mem_copy_to_slot (env : Env) (src dst : CStr) (m : Meta) (c : Slot) (msg : Msg)
    (h : msg ∈ (copy_to_slot env src dst m c).2) :
    msg = .perror_open_source ∨ msg = .perror_open_dst ∨ msg = .copied src dst := by
  simp only [copy_to_slot] at h
  split at h
  · exact Or.inl (List.mem_singleton.1 h)
  · split at h
    · exact Or.inr (Or.inl (List.mem_singleton.1 h))
    · exact Or.inr (Or.inr (List.mem_singleton.1 h))

/-- Every line "Copied: src -> dst" of a pass names a regular file of the source tree, and
`src` and `dst` are the paths `mirror_path` gives for it below the two roots. -/
theorem sync_directory_copied_paths (n : Node) :
    n.well_formed = true → ∀ (env : Env) (sd dd : CStr) (c : Slot) (s d : CStr),
      Msg.copied s d ∈ (sync_directory env sd dd n c).2 →
      ∃ path m, Slot.walk (.present n) path = .present (.file m) ∧
        s = mirror_path sd path ∧ d = mirror_path dd path := by
  induction n using Node.induct with
  | hfile m =>
    intro _ env sd dd c s d h
    simp [sync_directory] at h
  | hother m =>
    intro _ env sd dd c s d h
    simp [sync_directory] at h
  | hdir m es ih =>
    intro hwf env sd dd c s d h
    have hes : entries_well_formed es = true := by simpa [Node.well_formed] using hwf
    by_cases hr : m.readable = true
    · rw [sync_directory_dir _ _ _ _ _ _ hr] at h
      rcases mem_after_copy _ _ _ _ _ _ h with h | ⟨dm, des, -, -, h⟩
      · rw [mem_copy_pass_out env sd dd _ es hes _ (mkdir_ne_absent _ _ _)] at h
        obtain ⟨p, hp, h⟩ := h
        obtain ⟨hfind, -, hpwf⟩ := find_entry_of_mem hes hp
        by_cases hsx : m.searchable = true
        · rw [hsx] at h
          obtain ⟨pname, pn⟩ := p
          have hch : child (.present (.dir m es)) pname = .present pn :=
            child_dir m es pname pn hsx hfind
          cases pn with
          | dir m1 es1 =>
            simp only [entry_result, Bool.not_true, Bool.false_eq_true, if_false] at h
            obtain ⟨path, m', hw, hs, hd⟩ := ih (pname, .dir m1 es1) hp hpwf env _ _ _ s d h
            refine ⟨pname :: path, m', ?_, hs, hd⟩
            rw [walk_cons, hch]
            exact hw
          | file m1 =>
            simp only [entry_result, Bool.not_true, Bool.false_eq_true, if_false] at h
            refine ⟨[pname], m1, ?_, ?_⟩
            · rw [walk_cons, hch]
              rfl
            · split at h
              · rcases mem_copy_to_slot _ _ _ _ _ _ h with h | h | h
                · cases h
                · cases h
                · simp only [Msg.copied.injEq] at h
                  exact ⟨h.1, h.2⟩
              · cases h
          | other m1 => simp [entry_result] at h
        · have hsx' : m.searchable = false := by simpa using hsx
          rw [hsx', entry_result_no_search] at h
          cases h
      · have := (delete_pass_out sd dd _ es dm des _ h).1
        simp [Msg.is_copy_call] at this
    · have hr' : m.readable = false := by simpa using hr
      rw [sync_directory_not_readable _ _ _ _ _ _ hr'] at h
      simp at h

/-- A destination directory the process can read and search but not write: `unlink` of the
extra file `j` fails, line 210 prints "Deleted file" all the same, the entry stays, and a
second pass calls `unlink` on it again. This is why the theorem on two passes below asks for
destination directories the process can write. -/
theorem sync_directory_unlink_fails_twice :
    (sync_directory ⟨fun _ => 200, 4096, 0o022, false, fun _ n => n, fun _ n => n⟩ ['s'] ['d'] (.dir ⟨4096, 50, true, true, true⟩ [])
        (.present (.dir ⟨4096, 10, true, false, true⟩
          [(['j'], .file ⟨3, 4, true, true, true⟩)]))).2
      = [.deleted_file ['d', '/', 'j']] ∧
    stat_call (Slot.walk (sync_directory ⟨fun _ => 200, 4096, 0o022, false, fun _ n => n, fun _ n => n⟩ ['s'] ['d'] (.dir ⟨4096, 50, true, true, true⟩ [])
        (.present (.dir ⟨4096, 10, true, false, true⟩
          [(['j'], .file ⟨3, 4, true, true, true⟩)]))).1 [['j']])
      = (0, ⟨1, 3, 4⟩) ∧
    (sync_directory ⟨fun _ => 300, 4096, 0o022, false, fun _ n => n, fun _ n => n⟩ ['s'] ['d'] (.dir ⟨4096, 50, true, true, true⟩ [])
        (sync_directory ⟨fun _ => 200, 4096, 0o022, false, fun _ n => n, fun _ n => n⟩ ['s'] ['d'] (.dir ⟨4096, 50, true, true, true⟩ [])
          (.present (.dir ⟨4096, 10, true, false, true⟩
            [(['j'], .file ⟨3, 4, true, true, true⟩)]))).1).2
      = [.deleted_file ['d', '/', 'j']] := by
  decide

end Dirsync
